import Mathlib

/-!
Verification of `update_stars.py`: a script that sums star/fork counts over a
user's repositories (paginated fetch) and writes the total back into README.md
through a chain of four text-patching strategies.

Text is modelled as `List Char`.  Python regular-expression behaviour for the
three fixed patterns of the source is embedded as deterministic scanning
functions; the backtracking searches of the patterns reduce to these scans
because every quantifier in the patterns is followed by a literal whose first
character the quantifier's class cannot match (so each greedy run is maximal),
except the leading `.*` of the labeled-line pattern, whose greediness is
modelled by trying candidate positions right-to-left, and the multiline `^`
anchor, modelled by trying line starts left-to-right.  `\s` is modelled as
ASCII whitespace (the Unicode-only whitespace code points play no role in any
claim).
-/

/-- Python `\s` (ASCII part): space, tab, newline, carriage return,
form feed, vertical tab. -/
def wsChar (c : Char) : Bool :=
  c = ' ' || c = '\t' || c = '\n' || c = '\r' || c = '\x0c' || c = '\x0b'

/-- Maximal whitespace run at the front: `spanWs l = (run, rest)` with
`l = run ++ rest`, `run` all whitespace, `rest` not starting with whitespace. -/
def spanWs : List Char → List Char × List Char
  | [] => ([], [])
  | c :: cs =>
    if wsChar c then
      let p := spanWs cs
      (c :: p.1, p.2)
    else ([], c :: cs)

/-- Maximal non-whitespace run at the front (Python `\S+` body). -/
def spanNonWs : List Char → List Char × List Char
  | [] => ([], [])
  | c :: cs =>
    if wsChar c then ([], c :: cs)
    else
      let p := spanNonWs cs
      (c :: p.1, p.2)

/-- Maximal run of non-newline characters at the front (Python `.` without
DOTALL, run to the end of the current line). -/
def spanNotNl : List Char → List Char × List Char
  | [] => ([], [])
  | c :: cs =>
    if c = '\n' then ([], c :: cs)
    else
      let p := spanNotNl cs
      (c :: p.1, p.2)

/-- ASCII lowercasing, for `re.IGNORECASE` on the ASCII literals of the
source's patterns. -/
def lowerAscii (c : Char) : Char :=
  if 'A' ≤ c ∧ c ≤ 'Z' then Char.ofNat (c.toNat + 32) else c

/-- Case-insensitive (ASCII) literal match at the front of a text. -/
def ciIsPrefix : List Char → List Char → Bool
  | [], _ => true
  | _ :: _, [] => false
  | p :: ps, c :: cs => lowerAscii p = lowerAscii c && ciIsPrefix ps cs

/-- Leftmost occurrence of `pat` in a text: `splitFirst pat t = some (a, b)`
means `t = a ++ pat ++ b` and no occurrence of `pat` starts earlier. -/
def splitFirst (pat : List Char) : List Char → Option (List Char × List Char)
  | [] => if pat = [] then some ([], []) else none
  | c :: cs =>
    if pat.isPrefixOf (c :: cs) then some ([], (c :: cs).drop pat.length)
    else
      match splitFirst pat cs with
      | some (a, b) => some (c :: a, b)
      | none => none

/-- Decimal digit character (`0`-`9`; the catch-all branch is never hit for
arguments below ten). -/
def digitCh (n : Nat) : Char :=
  if n = 0 then '0' else if n = 1 then '1' else if n = 2 then '2'
  else if n = 3 then '3' else if n = 4 then '4' else if n = 5 then '5'
  else if n = 6 then '6' else if n = 7 then '7' else if n = 8 then '8'
  else if n = 9 then '9' else '*'

/-- Decimal digits of a natural number, most significant first, fuel-driven
(the fuel `n + 1` always suffices since `n < 10 ^ (n + 1)`). -/
def natDigits : Nat → Nat → List Char → List Char
  | 0, _, acc => acc
  | f + 1, n, acc =>
    if n < 10 then digitCh n :: acc
    else natDigits f (n / 10) (digitCh (n % 10) :: acc)

/-- Decimal string of a natural number. -/
def natStr (n : Nat) : List Char := natDigits (n + 1) n []

/-- Python `str(total)` for an integer: optional minus sign followed by the
decimal digits. -/
def intStr : Int → List Char
  | Int.ofNat m => natStr m
  | Int.negSucc m => '-' :: natStr (m + 1)

/-- The start marker literal of the source. -/
def startMarker : List Char := "<!--START_TOTAL_SCORE-->".data

/-- The end marker literal of the source. -/
def endMarker : List Char := "<!--END_TOTAL_SCORE-->".data

/-- Strategy 1 of the source (`replace_placeholder`): the Python pattern
`(<!--START_TOTAL_SCORE-->)(.*?)(<!--END_TOTAL_SCORE-->)` with `re.S` and
`count=1` replaces the region between the first start marker and the first
end marker after it; if the pattern has no match the text is returned
unchanged with `False`. -/
def replace_placeholder (text : List Char) (total : Int) : List Char × Bool :=
  match splitFirst startMarker text with
  | some (a, b) =>
    match splitFirst endMarker b with
    | some (_, d) =>
      (a ++ startMarker ++ intStr total ++ endMarker ++ d, true)
    | none => (text, false)
  | none => (text, false)

/-- Literal `total` (lowercased) of the labeled-line pattern. -/
def totalLit : List Char := "total".data

/-- Literal `stars` (lowercased) of the labeled-line pattern. -/
def starsLit : List Char := "stars".data

/-- Literal `forks` (lowercased) of the labeled-line pattern. -/
def forksLit : List Char := "forks".data

/-- Literal `and` of the labeled-line pattern's connector alternation. -/
def andLit : List Char := "and".data

/-- The optional group `(?:\s*(?:\+|&|and)?\s*Forks)?` of the labeled-line
pattern: returns `(consumed, rest)` with the argument equal to
`consumed ++ rest`; `consumed = []` when the group does not match (the group
is skipped).  Each `\s*` is a maximal run and the connector is tried in the
pattern's alternation order, which is exhaustive here because the connector
and `Forks` start with non-whitespace characters that exclude each other. -/
def tryForks (r : List Char) : List Char × List Char :=
  let p1 := spanWs r
  let p2 : List Char × List Char :=
    match p1.2 with
    | '+' :: t => (['+'], t)
    | '&' :: t => (['&'], t)
    | rest => if ciIsPrefix andLit rest then (rest.take 3, rest.drop 3) else ([], rest)
  let p3 := spanWs p2.2
  if ciIsPrefix forksLit p3.2 then
    (p1.1 ++ p2.1 ++ p3.1 ++ p3.2.take 5, p3.2.drop 5)
  else ([], r)

/-- The tail `\s+Stars(?:…Forks)?\s*[:：]\s*` of the labeled-line pattern,
applied to the text that follows a `Total` literal: `some (consumed, rest)`
on a match, with the argument equal to `consumed ++ rest` and `consumed`
the source characters the tail swallows (part of capture group 1). -/
def matchAfterTotal (r : List Char) : Option (List Char × List Char) :=
  match spanWs r with
  | ([], _) => none
  | (ws1, r1) =>
    if ciIsPrefix starsLit r1 then
      let fk := tryForks (r1.drop 5)
      let p2 := spanWs fk.2
      match p2.2 with
      | c :: r4 =>
        if c = ':' ∨ c = '：' then
          let p3 := spanWs r4
          some (ws1 ++ r1.take 5 ++ fk.1 ++ p2.1 ++ [c] ++ p3.1, p3.2)
        else none
      | [] => none
    else none

/-- One candidate position for the `Total` literal of the labeled-line
pattern inside the text `t` whose head is a line start: on success returns
`(g1, tok, g3, after)` with `t = g1 ++ tok ++ g3 ++ after`, where `g1` is
capture group 1 (line prefix through the `\s*` after the colon), `tok` is
capture group 2 (`\S+`), `g3` is capture group 3 (`.*` to the line end) and
`after` is the text after the match. -/
def tryTotalCandidate (t : List Char) (i : Nat) :
    Option (List Char × List Char × List Char × List Char) :=
  if ciIsPrefix totalLit (t.drop i) then
    match matchAfterTotal (t.drop (i + 5)) with
    | some (mid, r2) =>
      match spanNonWs r2 with
      | ([], _) => none
      | (tok, r3) =>
        let p := spanNotNl r3
        some (t.take (i + 5) ++ mid, tok, p.1, p.2)
    | none => none
  else none

/-- Candidate positions for `Total` tried right-to-left (the greedy
`[ \t>*-]*.*` of the pattern prefers the rightmost viable occurrence on the
line; both subpatterns match arbitrary line characters, so only the combined
length — the `Total` position — matters). -/
def tryFrom (t : List Char) : Nat → Option (List Char × List Char × List Char × List Char)
  | 0 => tryTotalCandidate t 0
  | i + 1 =>
    match tryTotalCandidate t (i + 1) with
    | some r => some r
    | none => tryFrom t i

/-- Attempt of the labeled-line pattern at a line start: try every position
of the current line as the start of `Total`, rightmost first. -/
def tryLine (t : List Char) : Option (List Char × List Char × List Char × List Char) :=
  tryFrom t (spanNotNl t).1.length

/-- Helper of `scanLines`: try `f` at the position after each newline of the
text, left to right; on success return the consumed prefix (ending just
after that newline) together with `f`'s result. -/
def scanAfterNl (f : List Char → Option α) : List Char → Option (List Char × α)
  | [] => none
  | c :: cs =>
    if c = '\n' then
      match f cs with
      | some a => some ([c], a)
      | none =>
        match scanAfterNl f cs with
        | some (b, a) => some (c :: b, a)
        | none => none
    else
      match scanAfterNl f cs with
      | some (b, a) => some (c :: b, a)
      | none => none

/-- Multiline `^` anchor: try `f` at every line start (position 0 and the
position after each newline), left to right, returning the text before the
successful line start together with `f`'s result. -/
def scanLines (f : List Char → Option α) (t : List Char) : Option (List Char × α) :=
  match f t with
  | some a => some ([], a)
  | none => scanAfterNl f t

/-- Strategy 2 of the source (`replace_common_line`): the Python pattern
`^([ \t>*-]*.*Total\s+Stars(?:\s*(?:\+|&|and)?\s*Forks)?\s*[:：]\s*)(\S+)(.*)$`
with `re.IGNORECASE | re.MULTILINE` and `count=1`, replacement
`group(1) + str(total) + group(3)`. -/
def replace_common_line (text : List Char) (total : Int) : List Char × Bool :=
  match scanLines tryLine text with
  | some (bf, (g1, _, g3, af)) => (bf ++ g1 ++ intStr total ++ g3 ++ af, true)
  | none => (text, false)

/-- Literal `Github Status:` of the heading pattern (case-sensitive: the
heading pattern carries no IGNORECASE flag). -/
def githubStatusLit : List Char := "Github Status:".data

/-- Attempt of the heading pattern `^(###\s*⭐\s*Github Status:.*)$` at a
line start: on a match returns `(consumed, rest)` where `consumed` is the
matched group (ending at the end of the line holding the `.*`) and `rest`
the remaining text, with the argument equal to `consumed ++ rest`. -/
def tryHeading (t : List Char) : Option (List Char × List Char) :=
  if List.isPrefixOf "###".data t then
    let p1 := spanWs (t.drop 3)
    match p1.2 with
    | c :: r3 =>
      if c = '⭐' then
        let p2 := spanWs r3
        if List.isPrefixOf githubStatusLit p2.2 then
          let p3 := spanNotNl (p2.2.drop githubStatusLit.length)
          some ("###".data ++ p1.1 ++ [c] ++ p2.1 ++ githubStatusLit ++ p3.1, p3.2)
        else none
      else none
    | [] => none
  else none

/-- The statistics line the source inserts under the status heading
(`insert_line` of `insert_under_status_heading`). -/
def insertLine (total : Int) : List Char :=
  "\n> 🌟 **Total Stars + Forks:** <!--START_TOTAL_SCORE-->".data
    ++ intStr total ++ "<!--END_TOTAL_SCORE-->\n".data

/-- Strategy 3 of the source (`insert_under_status_heading`): search the
heading pattern and splice `insert_line` in at `m.end(1)`; on no match the
text is returned unchanged with `False`. -/
def insert_under_status_heading (text : List Char) (total : Int) : List Char × Bool :=
  match scanLines tryHeading text with
  | some (bf, (hd, af)) => (bf ++ hd ++ insertLine total ++ af, true)
  | none => (text, false)

/-- The block strategy 4 appends (`append_line` of `append_to_end`). -/
def appendBlock (total : Int) : List Char :=
  "\n---\n> 🌟 **Total Stars + Forks:** <!--START_TOTAL_SCORE-->".data
    ++ intStr total ++ "<!--END_TOTAL_SCORE-->\n".data

/-- Strategy 4 of the source (`append_to_end`): unconditionally append the
block to the end, reporting success. -/
def append_to_end (text : List Char) (total : Int) : List Char × Bool :=
  (text ++ appendBlock total, true)

/-- Which strategy of `update_readme_robust` performed the update. -/
inductive Method where
  | marker
  | label
  | heading
  | append
deriving DecidableEq, Repr

/-- The strategy chain of `update_readme_robust` on the document text: each
strategy is tried on the original text, the first reporting success wins,
and strategy 4 is the unconditional fallback. -/
def patch (text : List Char) (total : Int) : List Char × Method :=
  match replace_placeholder text total with
  | (t1, true) => (t1, Method.marker)
  | (_, false) =>
    match replace_common_line text total with
    | (t2, true) => (t2, Method.label)
    | (_, false) =>
      match insert_under_status_heading text total with
      | (t3, true) => (t3, Method.heading)
      | (_, false) => ((append_to_end text total).1, Method.append)

/-- A file system: file contents addressed by path. -/
def Files : Type := String → Option (List Char)

/-- The fixed document path of the source. -/
def readme_path : String := "README.md"

/-- Outcome of one run of `update_readme_robust`: either the method that
patched the document, or the `FileNotFoundError` (the spec's
`MissingTargetError`) raised when the document is absent. -/
inductive UpdateResult where
  | ok (m : Method)
  | missingTarget
deriving DecidableEq, Repr

/-- The source's `update_readme_robust` over an explicit file system: if
`README.md` does not exist, raise before trying any strategy and leave every
file untouched; otherwise read it, run the strategy chain and write the
result back to `README.md` only. -/
def update_readme_robust (fs : Files) (total : Int) : UpdateResult × Files :=
  match fs readme_path with
  | none => (UpdateResult.missingTarget, fs)
  | some text =>
    let p := patch text total
    (UpdateResult.ok p.2, fun q => if q = readme_path then some p.1 else fs q)

/-- JSON-ish value of a repository-record field, covering the shapes the
claims range over: JSON `null`, integers, and strings. -/
inductive JVal where
  | null
  | int (n : Int)
  | str (s : List Char)
deriving DecidableEq, Repr

/-- Python truthiness of a field value (`x or 0` keeps `x` iff truthy). -/
def truthy : JVal → Bool
  | JVal.null => false
  | JVal.int n => decide (n ≠ 0)
  | JVal.str s => decide (s ≠ [])

/-- Trim surrounding whitespace (Python `int(str)` ignores it). -/
def trimWs (l : List Char) : List Char :=
  ((spanWs ((spanWs l).2.reverse)).2).reverse

/-- Value of a nonempty all-digit numeral, most significant digit first. -/
def digitsToNat (l : List Char) : Nat :=
  l.foldl (fun n c => 10 * n + (c.toNat - 48)) 0

/-- A nonempty run of decimal digits, or failure. -/
def parseDigits (l : List Char) : Option Nat :=
  if l ≠ [] ∧ l.all Char.isDigit then some (digitsToNat l) else none

/-- Python `int(s)` on a string: surrounding whitespace, an optional sign,
then decimal digits; anything else raises `ValueError`, modelled as `none`. -/
def parsePyInt (s : List Char) : Option Int :=
  match trimWs s with
  | '+' :: r => (parseDigits r).map Int.ofNat
  | '-' :: r => (parseDigits r).map (fun n => -(n : Int))
  | r => (parseDigits r).map Int.ofNat

/-- Python `int(v)` on a field value: integers pass through, strings are
parsed, `None` raises `TypeError` (`none`). -/
def pyInt : JVal → Option Int
  | JVal.null => none
  | JVal.int n => some n
  | JVal.str s => parsePyInt s

/-- A repository record, keeping only the two fields the source reads;
`none` models an absent key. -/
structure Repo where
  stargazers_count : Option JVal
  forks_count : Option JVal
deriving DecidableEq, Repr

/-- Python `r.get(key, 0)`: the field's value, or the integer `0` default. -/
def py_get (field : Option JVal) : JVal := field.getD (JVal.int 0)

/-- One summand of the source's reduction: `int(r.get(key, 0) or 0)`;
`none` models the `ValueError`/`TypeError` the conversion can raise. -/
def scoreOf (field : Option JVal) : Option Int :=
  pyInt (if truthy (py_get field) then py_get field else JVal.int 0)

/-- Python `sum(int(r.get(key, 0) or 0) for r in repos)`: left-to-right sum
that propagates the first conversion error. -/
def sumField (f : Repo → Option JVal) : List Repo → Option Int
  | [] => some 0
  | r :: rs =>
    match scoreOf (f r), sumField f rs with
    | some a, some b => some (a + b)
    | _, _ => none

/-- The source's `calculate_total_score`: `(total, stars, forks)` with
`total = stars + forks`; `none` models an uncaught conversion error. -/
def calculate_total_score (repos : List Repo) : Option (Int × Int × Int) :=
  match sumField (fun r => r.stargazers_count) repos,
        sumField (fun r => r.forks_count) repos with
  | some s, some f => some (s + f, s, f)
  | _, _ => none

/-- One page of the listing endpoint's response: a well-formed list of
records, or anything else (an error object, say). -/
inductive PageResp where
  | ok (rs : List Repo)
  | malformed

/-- The fixed page size of the source. -/
def per_page : Nat := 100

/-- Loop of the source's `fetch_all_repos`, fuel-driven (`none` = the fuel
ran out, i.e. the unbounded Python loop has not finished yet): request
`page`, raise on a malformed page, extend the accumulator, stop when the
page is short; also records the requested page numbers. -/
def fetchAux (pages : Nat → PageResp) :
    Nat → Nat → List Repo → List Nat → Option (Except Unit (List Repo × List Nat))
  | 0, _, _, _ => none
  | f + 1, page, acc, reqs =>
    match pages page with
    | PageResp.malformed => some (Except.error ())
    | PageResp.ok data =>
      if data.length < per_page then some (Except.ok (acc ++ data, reqs ++ [page]))
      else fetchAux pages f (page + 1) (acc ++ data) (reqs ++ [page])

/-- The source's `fetch_all_repos`: start at page 1 with an empty record
list; returns the fetched records and the page numbers requested. -/
def fetch_all_repos (pages : Nat → PageResp) (fuel : Nat) :
    Option (Except Unit (List Repo × List Nat)) :=
  fetchAux pages fuel 1 [] []

theorem splitFirst_decomp {pat t a b : List Char}
    (h : splitFirst pat t = some (a, b)) : t = a ++ pat ++ b := by
  induction t generalizing a b with
  | nil =>
    rw [splitFirst] at h
    by_cases hp : pat = ([] : List Char)
    · subst hp; simp at h; obtain ⟨rfl, rfl⟩ := h; rfl
    · simp [hp] at h
  | cons c cs ih =>
    rw [splitFirst] at h
    by_cases hp : pat.isPrefixOf (c :: cs) = true
    · simp [hp] at h
      obtain ⟨rfl, rfl⟩ := h
      obtain ⟨r, hr⟩ := List.isPrefixOf_iff_prefix.mp hp
      conv_lhs => rw [← hr]
      simp [← hr, List.drop_left]
    · simp only [Bool.not_eq_true] at hp
      simp only [hp, Bool.false_eq_true, if_false] at h
      cases hrec : splitFirst pat cs with
      | none => rw [hrec] at h; exact absurd h (by simp)
      | some p =>
        obtain ⟨a0, b0⟩ := p
        rw [hrec] at h
        simp at h
        obtain ⟨rfl, rfl⟩ := h
        simp [ih hrec]

theorem splitFirst_not_early {pat t a b : List Char}
    (h : splitFirst pat t = some (a, b)) :
    ∀ j, j < a.length → pat.isPrefixOf (t.drop j) = false := by
  induction t generalizing a b with
  | nil =>
    intro j hj
    rw [splitFirst] at h
    by_cases hp : pat = ([] : List Char)
    · subst hp; simp at h; obtain ⟨rfl, rfl⟩ := h; simp at hj
    · simp [hp] at h
  | cons c cs ih =>
    intro j hj
    rw [splitFirst] at h
    by_cases hp : pat.isPrefixOf (c :: cs) = true
    · simp [hp] at h; obtain ⟨rfl, _⟩ := h; simp at hj
    · simp only [Bool.not_eq_true] at hp
      simp only [hp, Bool.false_eq_true, if_false] at h
      cases hrec : splitFirst pat cs with
      | none => rw [hrec] at h; exact absurd h (by simp)
      | some p =>
        obtain ⟨a0, b0⟩ := p
        rw [hrec] at h
        simp at h
        obtain ⟨rfl, rfl⟩ := h
        cases j with
        | zero => simpa using hp
        | succ j => exact ih hrec j (by simpa using hj)

theorem splitFirst_of_first {pat a b : List Char} (hne : pat ≠ [])
    (h : ∀ j, j < a.length → pat.isPrefixOf ((a ++ pat ++ b).drop j) = false) :
    splitFirst pat (a ++ pat ++ b) = some (a, b) := by
  induction a with
  | nil =>
    obtain ⟨p, ps, rfl⟩ : ∃ p ps, pat = p :: ps := by
      cases pat with
      | nil => exact absurd rfl hne
      | cons p ps => exact ⟨p, ps, rfl⟩
    have hpre : (p :: ps).isPrefixOf ((p :: ps) ++ b) = true :=
      List.isPrefixOf_iff_prefix.mpr (List.prefix_append _ b)
    simp only [List.nil_append, List.cons_append] at hpre ⊢
    rw [splitFirst, if_pos hpre]
    rw [show p :: (ps ++ b) = (p :: ps) ++ b from rfl, List.drop_left]
  | cons x a' ih =>
    have h0 : pat.isPrefixOf ((x :: a') ++ pat ++ b) = false := by
      simpa using h 0 (by simp)
    simp only [List.cons_append] at h0 ⊢
    rw [splitFirst, if_neg (ne_true_of_eq_false h0)]
    have e := ih (fun j hj => by simpa using h (j + 1) (by simpa using Nat.succ_lt_succ hj))
    rw [e]

theorem isPrefixOf_append_congr {pat u v w : List Char}
    (h : pat.length ≤ u.length) :
    pat.isPrefixOf (u ++ v) = pat.isPrefixOf (u ++ w) := by
  induction pat generalizing u with
  | nil => simp [List.isPrefixOf]
  | cons p ps ih =>
    cases u with
    | nil => simp at h
    | cons x u' =>
      simp only [List.cons_append, List.isPrefixOf, List.append_eq]
      rw [ih (by simpa using h)]

theorem splitFirst_stable {pat t a b x : List Char} (hne : pat ≠ [])
    (h : splitFirst pat t = some (a, b)) :
    splitFirst pat (a ++ pat ++ x) = some (a, x) := by
  apply splitFirst_of_first hne
  intro j hj
  have h1 := splitFirst_not_early h j hj
  rw [splitFirst_decomp h] at h1
  have hj' : j ≤ a.length := Nat.le_of_lt hj
  rw [List.append_assoc, List.drop_append_of_le_length hj'] at h1 ⊢
  rw [show a.drop j ++ (pat ++ x) = (a.drop j ++ pat) ++ x by simp]
  rw [show a.drop j ++ (pat ++ b) = (a.drop j ++ pat) ++ b by simp] at h1
  rw [isPrefixOf_append_congr (by simp)]
  exact h1

theorem digitCh_ne_markerHead (n : Nat) : digitCh n ≠ '<' := by
  unfold digitCh
  repeat' split
  all_goals decide

theorem mem_natDigits {f n : Nat} {acc : List Char} {c : Char}
    (h : c ∈ natDigits f n acc) : c ∈ acc ∨ ∃ k, c = digitCh k := by
  induction f generalizing n acc with
  | zero => exact Or.inl h
  | succ f ih =>
    rw [natDigits] at h
    by_cases h10 : n < 10
    · rw [if_pos h10] at h
      rcases List.mem_cons.mp h with rfl | h
      · exact Or.inr ⟨n, rfl⟩
      · exact Or.inl h
    · rw [if_neg h10] at h
      rcases ih h with h' | h'
      · rcases List.mem_cons.mp h' with rfl | h''
        · exact Or.inr ⟨n % 10, rfl⟩
        · exact Or.inl h''
      · exact Or.inr h'

theorem intStr_ne_markerHead {i : Int} {c : Char} (h : c ∈ intStr i) : c ≠ '<' := by
  cases i with
  | ofNat m =>
    rcases mem_natDigits h with h' | ⟨k, rfl⟩
    · simp at h'
    · exact digitCh_ne_markerHead k
  | negSucc m =>
    rcases List.mem_cons.mp h with rfl | h'
    · decide
    · rcases mem_natDigits h' with h'' | ⟨k, rfl⟩
      · simp at h''
      · exact digitCh_ne_markerHead k

theorem splitFirst_endMarker_after_num (total : Int) (x : List Char) :
    splitFirst endMarker (intStr total ++ endMarker ++ x) = some (intStr total, x) := by
  apply splitFirst_of_first (by decide)
  intro j hj
  rw [List.append_assoc, List.drop_append_of_le_length (Nat.le_of_lt hj)]
  rw [List.drop_eq_getElem_cons hj, List.cons_append]
  rw [show endMarker = '<' :: "!--END_TOTAL_SCORE-->".data from by decide]
  rw [List.isPrefixOf]
  have hne : (intStr total)[j] ≠ '<' := intStr_ne_markerHead (List.getElem_mem hj)
  simp [beq_eq_false_iff_ne, Ne.symm hne]

/-- Claim C3: on a document containing a paired start/end marker, marker
replacement rewrites only the content strictly between the first marker
pair (the first start marker and the first end marker after it) to the
decimal string of the total, leaving both markers and all text outside the
pair character-for-character unchanged. -/
theorem marker_replaces_only_first_pair (p m s : List Char) (total : Int)
    (h1 : ∀ j, j < p.length →
      startMarker.isPrefixOf ((p ++ startMarker ++ (m ++ endMarker ++ s)).drop j) = false)
    (h2 : ∀ j, j < m.length →
      endMarker.isPrefixOf ((m ++ endMarker ++ s).drop j) = false) :
    replace_placeholder (p ++ startMarker ++ (m ++ endMarker ++ s)) total
      = (p ++ startMarker ++ intStr total ++ endMarker ++ s, true) := by
  have e1 : splitFirst startMarker (p ++ startMarker ++ (m ++ endMarker ++ s))
      = some (p, m ++ endMarker ++ s) := splitFirst_of_first (by decide) h1
  have e2 : splitFirst endMarker (m ++ endMarker ++ s) = some (m, s) :=
    splitFirst_of_first (by decide) h2
  simp only [replace_placeholder, e1, e2]

/-- Claim C5: marker replacement is idempotent — whenever the patcher
succeeds via the marker strategy, running it again on the result with the
same total succeeds via the marker strategy and returns the result
unchanged. -/
theorem marker_strategy_idempotent (text : List Char) (total : Int) (r : List Char)
    (h : patch text total = (r, Method.marker)) :
    patch r total = (r, Method.marker) := by
  cases hrp : replace_placeholder text total with
  | mk t1 done =>
    cases done with
    | false =>
      exfalso
      rw [patch, hrp] at h
      cases hrc : replace_common_line text total with
      | mk t2 d2 =>
        cases d2 with
        | false =>
          rw [hrc] at h
          cases hih : insert_under_status_heading text total with
          | mk t3 d3 =>
            cases d3 with
            | false => rw [hih] at h; simp at h
            | true => rw [hih] at h; simp at h
        | true => rw [hrc] at h; simp at h
    | true =>
      rw [patch, hrp] at h
      simp at h
      obtain ⟨rfl, -⟩ := h
      rw [replace_placeholder] at hrp
      cases hs : splitFirst startMarker text with
      | none => rw [hs] at hrp; simp at hrp
      | some ab =>
        obtain ⟨a, b⟩ := ab
        simp only [hs] at hrp
        cases he : splitFirst endMarker b with
        | none => simp only [he] at hrp; simp at hrp
        | some cd =>
          obtain ⟨c, d⟩ := cd
          simp only [he] at hrp
          simp at hrp
          have e1 : splitFirst startMarker (a ++ startMarker ++ (intStr total ++ endMarker ++ d))
              = some (a, intStr total ++ endMarker ++ d) :=
            splitFirst_stable (by decide) hs
          have e2 : splitFirst endMarker (intStr total ++ endMarker ++ d)
              = some (intStr total, d) := splitFirst_endMarker_after_num total d
          have hassoc : r = a ++ startMarker ++ (intStr total ++ endMarker ++ d) := by
            rw [← hrp]; simp [List.append_assoc]
          have hr2 : replace_placeholder r total = (r, true) := by
            rw [hassoc]
            simp only [replace_placeholder, e1, e2]
            simp [List.append_assoc]
          simp only [patch, hr2]

/-- Claim C2: on every document text and total, the patcher applies exactly
one strategy — the first of marker, labeled line, heading insertion, append
that matches — and never fails: when the first three all report no match,
the append fallback unconditionally succeeds and yields the original text
unchanged except for an appended block containing the decimal string of the
total. -/
theorem patcher_first_match_and_fallback (text : List Char) (total : Int) :
    ((replace_placeholder text total).2 = true ∧
       patch text total = ((replace_placeholder text total).1, Method.marker))
  ∨ ((replace_placeholder text total).2 = false ∧ (replace_common_line text total).2 = true ∧
       patch text total = ((replace_common_line text total).1, Method.label))
  ∨ ((replace_placeholder text total).2 = false ∧ (replace_common_line text total).2 = false ∧
       (insert_under_status_heading text total).2 = true ∧
       patch text total = ((insert_under_status_heading text total).1, Method.heading))
  ∨ ((replace_placeholder text total).2 = false ∧ (replace_common_line text total).2 = false ∧
       (insert_under_status_heading text total).2 = false ∧
       patch text total = (text ++ appendBlock total, Method.append) ∧
       intStr total <:+: appendBlock total) := by
  cases h1 : replace_placeholder text total with
  | mk t1 d1 =>
  cases h2 : replace_common_line text total with
  | mk t2 d2 =>
  cases h3 : insert_under_status_heading text total with
  | mk t3 d3 =>
  cases d1 with
  | true =>
    left
    simp [patch, h1]
  | false =>
    cases d2 with
    | true =>
      right; left
      simp [patch, h1, h2]
    | false =>
      cases d3 with
      | true =>
        right; right; left
        simp [patch, h1, h2, h3]
      | false =>
        right; right; right
        refine ⟨by simp [h1], by simp [h2], by simp [h3], by simp [patch, h1, h2, h3, append_to_end], ?_⟩
        exact ⟨"\n---\n> 🌟 **Total Stars + Forks:** <!--START_TOTAL_SCORE-->".data,
               "<!--END_TOTAL_SCORE-->\n".data, rfl⟩

/-- Claim C10: each of the three conditional patch strategies is
side-effect-free on failure — whenever one reports no match, the text it
returns is exactly its input. -/
theorem strategies_unchanged_on_failure (text : List Char) (total : Int) :
    ((replace_placeholder text total).2 = false → (replace_placeholder text total).1 = text)
  ∧ ((replace_common_line text total).2 = false → (replace_common_line text total).1 = text)
  ∧ ((insert_under_status_heading text total).2 = false →
       (insert_under_status_heading text total).1 = text) := by
  refine ⟨?_, ?_, ?_⟩
  · rw [replace_placeholder]
    cases hs : splitFirst startMarker text with
    | none => simp
    | some ab =>
      obtain ⟨a, b⟩ := ab
      cases he : splitFirst endMarker b with
      | none => simp [he]
      | some cd => obtain ⟨c, d⟩ := cd; simp [he]
  · rw [replace_common_line]
    cases h : scanLines tryLine text with
    | none => simp [h]
    | some p => obtain ⟨bf, g1, tok, g3, af⟩ := p; simp [h]
  · rw [insert_under_status_heading]
    cases h : scanLines tryHeading text with
    | none => simp [h]
    | some p => obtain ⟨bf, hd, af⟩ := p; simp [h]

/-- Claim C8: when the target document does not exist at its fixed path,
the update raises the missing-target error (the source's
`FileNotFoundError`) before any patch strategy is attempted and the file
system is returned completely unchanged. -/
theorem missing_target_aborts_before_patch (fs : Files) (total : Int)
    (h : fs readme_path = none) :
    update_readme_robust fs total = (UpdateResult.missingTarget, fs) := by
  simp only [update_readme_robust, h]

/-- Claim C4, evaluation at the failing input: on the spec's example line
the labeled-line strategy fires, but the first whitespace-delimited token
after the colon is the bold marker `**`, so the code replaces that token
and keeps the old number — it produces
`> 🌟 **Total Stars + Forks:99 42 (updated daily)` instead of the
`> 🌟 **Total Stars + Forks:** 99 (updated daily)` the claim states. -/
theorem label_line_example_actual_output :
    patch "> 🌟 **Total Stars + Forks:** 42 (updated daily)".data 99
      = ("> 🌟 **Total Stars + Forks:99 42 (updated daily)".data, Method.label) := by
  decide

/-- Claim C9: on a document consisting only of the status heading line,
with total 7, the patcher fires the heading-insertion strategy and the line
immediately following the heading contains the decimal 7 wrapped in a
freshly built marker pair, the heading and the pre-existing trailing
newline otherwise unchanged. -/
theorem heading_insertion_example :
    patch "### ⭐ Github Status:\n".data 7
      = ("### ⭐ Github Status:\n> 🌟 **Total Stars + Forks:** <!--START_TOTAL_SCORE-->7<!--END_TOTAL_SCORE-->\n\n".data,
         Method.heading) := by
  decide

/-- A count field whose value cannot make `int(... or 0)` raise: absent,
null, or an integer. -/
def intish : Option JVal → Bool
  | some (JVal.str _) => false
  | _ => true

/-- The number a record contributes for a field under the source's
reduction when the field is absent, null or an integer. -/
def plainCount : Option JVal → Int
  | some (JVal.int n) => n
  | _ => 0

/-- The claim's constraint on a count field: absent or null (contributing
0) or a non-negative integer. -/
def okCount : Option JVal → Bool
  | none => true
  | some JVal.null => true
  | some (JVal.int n) => decide (0 ≤ n)
  | some (JVal.str _) => false

theorem okCount_intish {o : Option JVal} (h : okCount o = true) : intish o = true := by
  match o with
  | none => rfl
  | some JVal.null => rfl
  | some (JVal.int n) => rfl
  | some (JVal.str s) => exact absurd h (by simp [okCount])

theorem scoreOf_eq_plain {o : Option JVal} (h : intish o = true) :
    scoreOf o = some (plainCount o) := by
  match o with
  | none => rfl
  | some JVal.null => rfl
  | some (JVal.int n) =>
    by_cases hn : n = 0
    · subst hn; rfl
    · simp [scoreOf, py_get, truthy, plainCount, hn, pyInt]
  | some (JVal.str s) => exact absurd h (by simp [intish])

theorem sumField_eq (f : Repo → Option JVal) (repos : List Repo)
    (h : ∀ r ∈ repos, intish (f r) = true) :
    sumField f repos = some ((repos.map (fun r => plainCount (f r))).sum) := by
  induction repos with
  | nil => simp [sumField]
  | cons r rs ih =>
    rw [sumField, scoreOf_eq_plain (h r (by simp)),
        ih (fun x hx => h x (by simp [hx]))]
    simp

/-- Claim C1: for every list of repository records whose `stargazers_count`
and `forks_count` fields are non-negative integers (absent or null fields
contributing 0), `calculate_total_score` returns the sum of all stars plus
the sum of all forks (together with the two partial sums). -/
theorem aggregate_total_eq_sums (repos : List Repo)
    (h : ∀ r ∈ repos, okCount r.stargazers_count = true ∧ okCount r.forks_count = true) :
    calculate_total_score repos =
      some ((repos.map (fun r => plainCount r.stargazers_count)).sum
              + (repos.map (fun r => plainCount r.forks_count)).sum,
            (repos.map (fun r => plainCount r.stargazers_count)).sum,
            (repos.map (fun r => plainCount r.forks_count)).sum) := by
  have hs := sumField_eq (fun r => r.stargazers_count) repos
    (fun r hr => okCount_intish (h r hr).1)
  have hf := sumField_eq (fun r => r.forks_count) repos
    (fun r hr => okCount_intish (h r hr).2)
  simp only [calculate_total_score, hs, hf]

/-- Claim C7, counterexample: a well-formed list of records on which the
aggregation nevertheless raises — a record whose `stargazers_count` is the
string `"abc"` is truthy, so the source runs `int("abc")`, which raises
`ValueError`; the claim that no error is raised regardless of record
contents is therefore false. -/
theorem aggregation_raises_on_string_count :
    calculate_total_score [⟨some (JVal.str "abc".data), none⟩] = none := by
  decide

/-- Claim C7, amended: records whose count fields are absent, null or
integers never make the aggregation raise (missing/null fields count as 0),
and a page that is not a well-formed list of records makes the fetch raise;
but — per the counterexample — a record holding a truthy non-numeric string
in a count field does raise, so tolerance does not extend to arbitrary
record contents. -/
theorem aggregation_tolerance_and_page_shape_error :
    (∀ repos : List Repo,
        (∀ r ∈ repos, intish r.stargazers_count = true ∧ intish r.forks_count = true) →
        (calculate_total_score repos).isSome = true)
  ∧ (∀ (pages : Nat → PageResp) (fuel : Nat), pages 1 = PageResp.malformed → 0 < fuel →
        fetch_all_repos pages fuel = some (Except.error ())) := by
  constructor
  · intro repos h
    have hs := sumField_eq (fun r => r.stargazers_count) repos (fun r hr => (h r hr).1)
    have hf := sumField_eq (fun r => r.forks_count) repos (fun r hr => (h r hr).2)
    simp [calculate_total_score, hs, hf]
  · intro pages fuel h hf
    cases fuel with
    | zero => omega
    | succ f => simp only [fetch_all_repos, fetchAux, h]

theorem fetchAux_pages_run (pages : Nat → PageResp) (rs : Nat → List Repo) :
    ∀ (N p : Nat) (acc : List Repo) (reqs : List Nat) (fuel : Nat),
      (∀ k, k < N → pages (p + k) = PageResp.ok (rs (p + k)) ∧ (rs (p + k)).length = per_page) →
      pages (p + N) = PageResp.ok (rs (p + N)) →
      (rs (p + N)).length < per_page →
      N < fuel →
      fetchAux pages fuel p acc reqs
        = some (Except.ok (acc ++ ((List.range' p (N + 1)).map rs).flatten,
                           reqs ++ List.range' p (N + 1))) := by
  intro N
  induction N with
  | zero =>
    intro p acc reqs fuel hfull hlast hshort hfuel
    cases fuel with
    | zero => omega
    | succ f =>
      rw [show p + 0 = p from rfl] at hlast hshort
      rw [fetchAux]
      simp only [hlast, if_pos hshort]
      simp [List.range']
  | succ N ih =>
    intro p acc reqs fuel hfull hlast hshort hfuel
    cases fuel with
    | zero => omega
    | succ f =>
      have h0 := hfull 0 (Nat.succ_pos N)
      rw [show p + 0 = p from rfl] at h0
      have hnot : ¬ ((rs p).length < per_page) := by
        rw [h0.2]; exact Nat.lt_irrefl _
      rw [fetchAux]
      simp only [h0.1]
      rw [if_neg hnot]
      have e := ih (p + 1) (acc ++ rs p) (reqs ++ [p]) f
        (fun k hk => by
          have := hfull (k + 1) (Nat.succ_lt_succ hk)
          rwa [show p + (k + 1) = (p + 1) + k by omega] at this)
        (by rw [show (p + 1) + N = p + (N + 1) by omega]; exact hlast)
        (by rw [show (p + 1) + N = p + (N + 1) by omega]; exact hshort)
        (by omega)
      have hr : List.range' p (N + 1 + 1) = p :: List.range' (p + 1) (N + 1) :=
        List.range'_succ p (N + 1) 1
      rw [e, hr]
      simp [List.append_assoc]

/-- Claim C6: if the listing endpoint returns N pages of exactly
`per_page` records followed by a page with fewer records, the fetch loop
requests exactly pages 1 through N+1 (in order) and returns the
concatenation of all fetched records. -/
theorem pagination_requests_exactly (pages : Nat → PageResp) (rs : Nat → List Repo) (N : Nat)
    (hfull : ∀ k, k < N → pages (k + 1) = PageResp.ok (rs (k + 1)) ∧ (rs (k + 1)).length = per_page)
    (hlast : pages (N + 1) = PageResp.ok (rs (N + 1)))
    (hshort : (rs (N + 1)).length < per_page)
    (fuel : Nat) (hfuel : N < fuel) :
    fetch_all_repos pages fuel
      = some (Except.ok (((List.range' 1 (N + 1)).map rs).flatten, List.range' 1 (N + 1))) := by
  have e := fetchAux_pages_run pages rs N 1 [] [] fuel
    (fun k hk => by
      have := hfull k hk
      rwa [show 1 + k = k + 1 by omega])
    (by rw [show 1 + N = N + 1 by omega]; exact hlast)
    (by rw [show 1 + N = N + 1 by omega]; exact hshort)
    hfuel
  simpa [fetch_all_repos] using e

/-- Concrete repository record used in witnesses. -/
def repoA : Repo := ⟨some (JVal.int 3), none⟩

/-- Concrete repository record used in witnesses. -/
def repoB : Repo := ⟨some JVal.null, some (JVal.int 4)⟩

/-- Witness for C1. -/
theorem aggregate_total_eq_sums_w :
    (∀ r ∈ [repoA, repoB], okCount r.stargazers_count = true ∧ okCount r.forks_count = true)
  ∧ calculate_total_score [repoA, repoB] = some (7, 3, 4) :=
  ⟨by decide, (aggregate_total_eq_sums [repoA, repoB] (by decide)).trans (by decide)⟩

/-- Witness for C3. -/
theorem marker_replaces_only_first_pair_w :
    (∀ j, j < ("A ".data).length →
       startMarker.isPrefixOf
         (("A ".data ++ startMarker ++ ("x".data ++ endMarker ++ " B".data)).drop j) = false)
  ∧ (∀ j, j < ("x".data).length →
       endMarker.isPrefixOf (("x".data ++ endMarker ++ " B".data).drop j) = false)
  ∧ replace_placeholder ("A ".data ++ startMarker ++ ("x".data ++ endMarker ++ " B".data)) 5
      = ("A ".data ++ startMarker ++ intStr 5 ++ endMarker ++ " B".data, true) :=
  ⟨by decide, by decide,
   marker_replaces_only_first_pair "A ".data "x".data " B".data 5 (by decide) (by decide)⟩

/-- Witness for C5. -/
theorem marker_strategy_idempotent_w :
    patch "A<!--START_TOTAL_SCORE-->x<!--END_TOTAL_SCORE-->B".data 5
      = ("A<!--START_TOTAL_SCORE-->5<!--END_TOTAL_SCORE-->B".data, Method.marker)
  ∧ patch "A<!--START_TOTAL_SCORE-->5<!--END_TOTAL_SCORE-->B".data 5
      = ("A<!--START_TOTAL_SCORE-->5<!--END_TOTAL_SCORE-->B".data, Method.marker) :=
  ⟨by decide,
   marker_strategy_idempotent "A<!--START_TOTAL_SCORE-->x<!--END_TOTAL_SCORE-->B".data 5
     "A<!--START_TOTAL_SCORE-->5<!--END_TOTAL_SCORE-->B".data (by decide)⟩

/-- Page responses used in the C6 witness: one full page, one short page. -/
def pagesW : Nat → PageResp := fun k =>
  if k = 1 then PageResp.ok (List.replicate 100 repoA)
  else if k = 2 then PageResp.ok [repoB]
  else PageResp.malformed

/-- Per-page record lists used in the C6 witness. -/
def rsW : Nat → List Repo := fun k =>
  if k = 1 then List.replicate 100 repoA else if k = 2 then [repoB] else []

/-- Witness for C6. -/
theorem pagination_requests_exactly_w :
    (∀ k, k < 1 → pagesW (k + 1) = PageResp.ok (rsW (k + 1)) ∧ (rsW (k + 1)).length = per_page)
  ∧ pagesW 2 = PageResp.ok (rsW 2)
  ∧ (rsW 2).length < per_page
  ∧ 1 < 2
  ∧ fetch_all_repos pagesW 2
      = some (Except.ok (((List.range' 1 2).map rsW).flatten, List.range' 1 2)) := by
  refine ⟨?_, rfl, by decide, by decide, ?_⟩
  · intro k hk
    have hk0 : k = 0 := by omega
    subst hk0
    exact ⟨rfl, by simp [rsW, per_page]⟩
  · exact pagination_requests_exactly pagesW rsW 1
      (fun k hk => by
        have hk0 : k = 0 := by omega
        subst hk0
        exact ⟨rfl, by simp [rsW, per_page]⟩)
      rfl (by decide) 2 (by decide)

/-- Witness for C7 (amended). -/
theorem aggregation_tolerance_and_page_shape_error_w :
    (calculate_total_score [(⟨some (JVal.int (-2)), some JVal.null⟩ : Repo)]).isSome = true
  ∧ fetch_all_repos (fun _ => PageResp.malformed) 1 = some (Except.error ()) :=
  ⟨aggregation_tolerance_and_page_shape_error.1 _ (by decide),
   aggregation_tolerance_and_page_shape_error.2 (fun _ => PageResp.malformed) 1 rfl (by decide)⟩

/-- File system with no files, used in the C8 witness. -/
def emptyFs : Files := fun _ => none

/-- Witness for C8. -/
theorem missing_target_aborts_before_patch_w :
    emptyFs readme_path = none
  ∧ update_readme_robust emptyFs 0 = (UpdateResult.missingTarget, emptyFs) :=
  ⟨rfl, missing_target_aborts_before_patch emptyFs 0 rfl⟩

/-- Witness for C10. -/
theorem strategies_unchanged_on_failure_w :
    ((replace_placeholder "x".data 0).2 = false ∧ (replace_placeholder "x".data 0).1 = "x".data)
  ∧ ((replace_common_line "x".data 0).2 = false ∧ (replace_common_line "x".data 0).1 = "x".data)
  ∧ ((insert_under_status_heading "x".data 0).2 = false ∧
       (insert_under_status_heading "x".data 0).1 = "x".data) :=
  ⟨⟨by decide, (strategies_unchanged_on_failure "x".data 0).1 (by decide)⟩,
   ⟨by decide, (strategies_unchanged_on_failure "x".data 0).2.1 (by decide)⟩,
   ⟨by decide, (strategies_unchanged_on_failure "x".data 0).2.2 (by decide)⟩⟩
